import Mathlib

/-!
# Rubinius `VM` execution context (`machine/vm.hpp`)

A shallow embedding of the inline members of `rubinius::VM`: stack-bounds
checking, the fiber transition flag, call-frame push/pop, interrupt polling,
profiling-sample scheduling at checkpoints and the bounded wait helper; and of
the slot accessor macros of `machine/defines.hpp`.

Machine integers are mathematical integers reduced explicitly: `size_t` and
`uint64_t` values live in `[0, 2^64)`, `ssize_t` and `intptr_t` values in
`[-2^63, 2^63)`, and every conversion or arithmetic step of the source that can
leave its range is followed by the reduction the 64-bit target performs.
-/

namespace Rubinius

/-! ## Machine arithmetic -/

/-- Number of values of a 64-bit word, `2^64`. -/
def wordCard : Int := 18446744073709551616

/-- Smallest value above the `ssize_t` / `intptr_t` range, `2^63`. -/
def ssizeCard : Int := 9223372036854775808

/-- Conversion to `size_t` (`uint64_t`): reduction modulo `2^64`. -/
def to_size_t (n : Int) : Int := n % wordCard

/-- Conversion to `ssize_t` (`intptr_t`): two's-complement reduction into
`[-2^63, 2^63)`. -/
def to_ssize_t (n : Int) : Int := (n + ssizeCard) % wordCard - ssizeCard

/-- The cast `reinterpret_cast<intptr_t>(p)` of a pointer whose address is `p`. -/
def intptr (p : Nat) : Int := to_ssize_t (p : Int)

/-! ## The execution context -/

/-- The enum `VM::FiberTransition` (vm.hpp, lines 111-118). -/
inductive FiberTransition where
  | eSuspending
  | eSuspended
  | eResuming
  | eRunning
  | eCanceled
  | eFinished
  deriving DecidableEq, Repr

/-- Calls to out-of-line members whose bodies are not part of the header; the
model records them in the order they are made. -/
inductive Call where
  | raise_stack_error
  | sample
  | raise_exception
  | raise_thread_kill
  deriving DecidableEq, Repr

/-- The fields of `rubinius::VM` read or written by the inline members modelled
here. Pointers are addresses (`0` is the null pointer);
`interrupted_exception` is `none` when the root holds nil. `checkpoints` and
`stops` are `diagnostics::metric` counters, an unsigned machine type declared
outside the header, whose values lie below its number of values (the `card`
of `checkpoint_with`). `frame_links` lists the `previous`
links written into pushed frames, `calls` the calls made to out-of-line
members. -/
structure VM where
  call_frame : Nat
  stack_start : Nat
  stack_size : Nat
  stack_cushion : Nat
  interrupt_by_kill : Bool
  check_local_interrupts : Bool
  thread_step : Bool
  fiber_transition_flag : FiberTransition
  sample_interval : Nat
  sample_counter : Nat
  checkpoints : Nat
  stops : Nat
  interrupted_exception : Option Nat
  frame_links : List (Nat × Nat)
  calls : List Call
  deriving DecidableEq, Repr

/-! ## Stack-bounds checking (vm.hpp, lines 298-329) -/

/-- The local `stack_used` of `VM::stack_remaining` after line 317: the
`intptr_t` difference of the two pointers, negated when negative, each step
reduced to `ssize_t`. -/
def stack_used (vm : VM) (stack_address : Nat) : Int :=
  let used := to_ssize_t (intptr vm.stack_start - intptr stack_address)
  if used < 0 then to_ssize_t (-used) else used

/-- The function `VM::stack_remaining`: `stack_size_ - stack_used` is computed
in `size_t` (the signed operand is converted to unsigned) and the result is
converted to the return type `ssize_t`. -/
def stack_remaining (vm : VM) (stack_address : Nat) : Int :=
  to_ssize_t (to_size_t ((vm.stack_size : Int) - to_size_t (stack_used vm stack_address)))

/-- Modelled from the spec: `VM::raise_stack_error` is only declared in
vm.hpp. The spec says a stack-overflow error is raised; the model records the
call and leaves the other fields alone. -/
def raise_stack_error (vm : VM) : VM :=
  { vm with calls := vm.calls ++ [Call.raise_stack_error] }

/-- The function `VM::check_stack`: the returned flag and the state after the call. -/
def check_stack (vm : VM) (stack_address : Nat) : Bool × VM :=
  if stack_remaining vm stack_address ≤ 0 then
    (false, raise_stack_error vm)
  else
    (true, vm)

/-- The distance `|stack_start - address|` between two pointers, taken on their
`intptr_t` values as the source does. -/
def ptr_distance (p q : Nat) : Nat := (intptr p - intptr q).natAbs

/-- Number of stack-overflow errors raised so far. -/
def stack_errors (vm : VM) : Nat := vm.calls.count Call.raise_stack_error

/-- A context freshly set up with the given stack bounds. -/
def stackVM (start size : Nat) : VM :=
  { call_frame := 0, stack_start := start, stack_size := size, stack_cushion := 0,
    interrupt_by_kill := false, check_local_interrupts := false, thread_step := false,
    fiber_transition_flag := FiberTransition.eRunning,
    sample_interval := 0, sample_counter := 0, checkpoints := 0, stops := 0,
    interrupted_exception := none, frame_links := [], calls := [] }

/-! ## Fiber transition flag (vm.hpp, lines 193-243) -/

/-- The accessor `VM::set_suspending`. -/
def set_suspending (vm : VM) : VM :=
  { vm with fiber_transition_flag := FiberTransition.eSuspending }

/-- The accessor `VM::set_suspended`. -/
def set_suspended (vm : VM) : VM :=
  { vm with fiber_transition_flag := FiberTransition.eSuspended }

/-- The accessor `VM::set_resuming`. -/
def set_resuming (vm : VM) : VM :=
  { vm with fiber_transition_flag := FiberTransition.eResuming }

/-- The accessor `VM::set_running`. -/
def set_running (vm : VM) : VM :=
  { vm with fiber_transition_flag := FiberTransition.eRunning }

/-- The accessor `VM::set_canceled`. -/
def set_canceled (vm : VM) : VM :=
  { vm with fiber_transition_flag := FiberTransition.eCanceled }

/-- The accessor `VM::set_finished`. -/
def set_finished (vm : VM) : VM :=
  { vm with fiber_transition_flag := FiberTransition.eFinished }

/-- A call to one of the six transition setters, named by the state it requests. -/
abbrev TransitionRequest := FiberTransition

/-- Dispatch of a transition request to the setter of that name. -/
def request_transition (vm : VM) : TransitionRequest → VM
  | FiberTransition.eSuspending => set_suspending vm
  | FiberTransition.eSuspended => set_suspended vm
  | FiberTransition.eResuming => set_resuming vm
  | FiberTransition.eRunning => set_running vm
  | FiberTransition.eCanceled => set_canceled vm
  | FiberTransition.eFinished => set_finished vm

/-- A sequence of setter calls, in order. -/
def request_transitions (vm : VM) : List TransitionRequest → VM
  | [] => vm
  | r :: rs => request_transitions (request_transition vm r) rs

/-- The legal edges of the fiber state machine as the specification lists them:
Running→Suspending→Suspended→Resuming→Running, Running→Canceled,
Suspended→Canceled and Canceled→Finished. -/
def legal_edge : FiberTransition → FiberTransition → Bool
  | FiberTransition.eRunning, FiberTransition.eSuspending => true
  | FiberTransition.eSuspending, FiberTransition.eSuspended => true
  | FiberTransition.eSuspended, FiberTransition.eResuming => true
  | FiberTransition.eResuming, FiberTransition.eRunning => true
  | FiberTransition.eRunning, FiberTransition.eCanceled => true
  | FiberTransition.eSuspended, FiberTransition.eCanceled => true
  | FiberTransition.eCanceled, FiberTransition.eFinished => true
  | _, _ => false

/-! ## Call frames and interrupt polling (vm.hpp, lines 331-356, 403-433) -/

/-- The accessor `VM::set_call_frame`. -/
def set_call_frame (vm : VM) (frame : Nat) : VM :=
  { vm with call_frame := frame }

/-- Modelled from the spec: `VM::push_call_frame` is only declared in vm.hpp.
The spec says that push installs a new frame as the new top, linking to the
previous top; the previous top is handed back through the reference parameter
`previous_frame`. The spec names no failure, so the flag returned is true. The
result is the flag, the frame handed back and the state after the call. -/
def push_call_frame (vm : VM) (frame : Nat) : Bool × Nat × VM :=
  (true, vm.call_frame,
    { vm with call_frame := frame,
              frame_links := (frame, vm.call_frame) :: vm.frame_links })

/-- Modelled from the spec: `VM::check_thread_raise_or_kill` is only declared
in vm.hpp. The spec says it inspects pending asynchronous raise/kill requests
and converts them into a thrown exception or termination; the model reports a
registered exception or a pending kill and records the conversion. -/
def check_thread_raise_or_kill (vm : VM) : Bool × VM :=
  if vm.interrupted_exception.isSome then
    (true, { vm with calls := vm.calls ++ [Call.raise_exception] })
  else if vm.interrupt_by_kill then
    (true, { vm with calls := vm.calls ++ [Call.raise_thread_kill] })
  else
    (false, vm)

/-- The function `VM::thread_interrupted_p`, over the out-of-line member
`check_thread_raise_or_kill` it defers to (`raise_or_kill`). -/
def thread_interrupted_p (raise_or_kill : VM → Bool × VM) (vm : VM) : Bool × VM :=
  if vm.check_local_interrupts then
    raise_or_kill vm
  else
    (false, vm)

/-- The function `VM::pop_call_frame`: the frame is stored first, then the
negated interrupt poll is returned. -/
def pop_call_frame (raise_or_kill : VM → Bool × VM) (vm : VM) (frame : Nat) : Bool × VM :=
  let vm1 := { vm with call_frame := frame }
  let polled := thread_interrupted_p raise_or_kill vm1
  (!polled.1, polled.2)

/-- Pushes the given frames in order; returns the frames handed back by the
pushes, in push order, and the state after the last push. -/
def push_frames (vm : VM) : List Nat → List Nat × VM
  | [] => ([], vm)
  | f :: fs =>
    let pushed := push_call_frame vm f
    let rest := push_frames pushed.2.2 fs
    (pushed.2.1 :: rest.1, rest.2)

/-- Pops once for each frame of the list, in order, passing that frame. -/
def pop_frames (raise_or_kill : VM → Bool × VM) (vm : VM) : List Nat → VM
  | [] => vm
  | p :: ps => pop_frames raise_or_kill (pop_call_frame raise_or_kill vm p).2 ps

/-- A context whose top frame is `frame`, with a kill pending and an exception
registered, and local interrupt checks switched as given. -/
def pendingVM (frame : Nat) (checks : Bool) : VM :=
  { stackVM 0 0 with call_frame := frame, check_local_interrupts := checks,
                     interrupt_by_kill := true, interrupted_exception := some 5 }

/-! ## Checkpoints and sampling (vm.hpp, lines 452-475) -/

/-- The macro `RBX_PROFILE_MAX_SHIFT`. -/
def RBX_PROFILE_MAX_SHIFT : Nat := 0xf

/-- The macro `RBX_PROFILE_MAX_INTERVAL`. -/
def RBX_PROFILE_MAX_INTERVAL : Nat := 0x1fff

/-- Number of values of a `uint64_t`. -/
def uint64Card : Nat := 18446744073709551616

/-- Modelled from the spec: `VM::sample` is only declared in vm.hpp. The spec
says a profiling sample is recorded; the model records the call. -/
def sample (vm : VM) : VM :=
  { vm with calls := vm.calls ++ [Call.sample] }

/-- Number of profiling samples recorded so far. -/
def samples (vm : VM) : Nat := vm.calls.count Call.sample

/-- The function `VM::set_sample_interval`, over the value `r` returned by
`randombytes_random()`: stored into the `uint64_t` field, shifted right by its
own low four bits, masked, and the counter reset. -/
def set_sample_interval (r : Nat) (vm : VM) : VM :=
  let stored := r % uint64Card
  let shifted := stored >>> (stored &&& RBX_PROFILE_MAX_SHIFT)
  let masked := shifted &&& RBX_PROFILE_MAX_INTERVAL
  { vm with sample_interval := masked, sample_counter := 0 }

/-- The function `VM::checkpoint`, over the number of values `card` of the
counter type `diagnostics::metric` (declared outside the header), the outcome
`stop` of `ThreadNexus::check_stop` and the value `r` the random source returns
if a new interval is drawn. The increments `++checkpoints_` and `++stops_` are
taken in the counter type, so they wrap at `card`. The test
`sample_counter_++ >= sample_interval_` compares the counter before the
increment. -/
def checkpoint_with (card : Nat) (stop : Bool) (r : Nat) (vm : VM) : VM :=
  let vm1 := { vm with checkpoints := (vm.checkpoints + 1) % card }
  let vm2 := if stop then { vm1 with stops := (vm1.stops + 1) % card } else vm1
  let before := vm2.sample_counter
  let vm3 := { vm2 with sample_counter := (before + 1) % uint64Card }
  if before ≥ vm3.sample_interval then
    set_sample_interval r (sample vm3)
  else
    vm3

/-- The function `VM::checkpoint` with `diagnostics::metric` a 64-bit unsigned
counter, like the sibling counters `sample_interval_` and `sample_counter_`. -/
def checkpoint (stop : Bool) (r : Nat) (vm : VM) : VM :=
  checkpoint_with uint64Card stop r vm

/-- A sequence of checkpoints, each with its stop outcome and random value. -/
def checkpoints_run (vm : VM) : List (Bool × Nat) → VM
  | [] => vm
  | c :: cs => checkpoints_run (checkpoint c.1 c.2 vm) cs

/-- A sequence of checkpoints for a counter type of `card` values. -/
def checkpoints_run_with (card : Nat) (vm : VM) : List (Bool × Nat) → VM
  | [] => vm
  | c :: cs => checkpoints_run_with card (checkpoint_with card c.1 c.2 vm) cs

/-- A context with the given values of the counters `checkpoints_` and
`stops_` and nothing else set. -/
def counterVM (checkpoints stops : Nat) : VM :=
  { stackVM 0 0 with checkpoints := checkpoints, stops := stops }

/-- A context with the given sampling state and nothing else set. -/
def sampleVM (interval counter : Nat) : VM :=
  { stackVM 0 0 with sample_interval := interval, sample_counter := counter }

/-! ## Bounded wait (vm.hpp, lines 90, 284-293) -/

/-- The constant `VM::cWaitLimit`. -/
def cWaitLimit : Nat := 100

/-- The loop of `VM::limited_wait_for` with `n = cWaitLimit - i` iterations
left. The predicate `f` is a callable with its own state `σ`. While `n > 0`
the condition evaluates `f` and assigns `status`; a true status leaves the
loop, a false one sleeps and continues. At `n = 0` the test `i < cWaitLimit`
fails and `f` is not evaluated. The result is the status, the number of
evaluations of `f` made, and the state of `f` afterwards. -/
def limited_wait_loop {σ : Type} (f : σ → Bool × σ) : Nat → Bool → σ → Bool × Nat × σ
  | 0, status, s => (status, 0, s)
  | n + 1, _, s =>
    let r := f s
    if r.1 then
      (r.1, 1, r.2)
    else
      let rest := limited_wait_loop f n r.1 r.2
      (rest.1, rest.2.1 + 1, rest.2.2)

/-- The function `VM::limited_wait_for`. -/
def limited_wait_for {σ : Type} (f : σ → Bool × σ) (s : σ) : Bool × Nat × σ :=
  limited_wait_loop f cWaitLimit false s

/-- State of the callable `f` after `j` evaluations starting from `s`. -/
def state_after {σ : Type} (f : σ → Bool × σ) (s : σ) : Nat → σ
  | 0 => s
  | j + 1 => state_after f (f s).2 j

/-- Value returned by evaluation number `j` (counted from 0) of `f` when it is
evaluated repeatedly starting from `s`. -/
def outcome {σ : Type} (f : σ → Bool × σ) (s : σ) (j : Nat) : Bool :=
  (f (state_after f s j)).1

/-- A callable that counts its evaluations and answers true from the
evaluation numbered `k` on. -/
def ready_after (k : Nat) (n : Nat) : Bool × Nat := (decide (k ≤ n), n + 1)

/-! ## Slot accessors (defines.hpp, lines 34-101; builtin/regexp.hpp) -/

/-- A managed reference: the value of a `type*` slot or argument. -/
abbrev Ref := Nat

/-- An object with macro-generated slots named by `ι`, together with the part
of `STATE` the accessors touch: `self` is `this`, `slots n` is the field
`_n_`, and `barriers` lists the calls `memory::write_barrier(state, object,
value)` made so far as pairs `(object, value)`, in order. -/
structure ManagedObject (ι : Type) where
  self : Ref
  slots : ι → Ref
  barriers : List (Ref × Ref)

/-- Modelled from the spec: `memory::write_barrier(STATE, A*, B*)` of the
header defines.hpp forwards to an overload declared elsewhere. The spec describes a
write-barrier record as the fact that object A now references object B; the
model appends that fact for each call. -/
def write_barrier {ι : Type} (o : ManagedObject ι) (object value : Ref) : ManagedObject ι :=
  { o with barriers := o.barriers ++ [(object, value)] }

/-- The generated reader `type* name() const`. -/
def slot_get {ι : Type} (name : ι) (o : ManagedObject ι) : Ref :=
  o.slots name

/-- The generated mutator `void name(type* obj)`: the store alone. -/
def slot_set {ι : Type} [DecidableEq ι] (name : ι) (obj : Ref) (o : ManagedObject ι) :
    ManagedObject ι :=
  { o with slots := Function.update o.slots name obj }

/-- The generated mutator `void name(STATE, type* obj)`: the store, then
`memory::write_barrier(state, this, obj)`. -/
def slot_set_barrier {ι : Type} [DecidableEq ι] (name : ι) (obj : Ref) (o : ManagedObject ι) :
    ManagedObject ι :=
  let stored := { o with slots := Function.update o.slots name obj }
  write_barrier stored stored.self obj

/-- The members a slot macro can generate: the reader `name()`, the mutator
`name(obj)`, the mutator `name(STATE, obj)` and the address getter `p_name()`. -/
inductive Member where
  | reader
  | writer
  | barrier_writer
  | slot_pointer
  deriving DecidableEq, Repr

/-- The members generated by the macro `attr_writer` (lines 49-62). -/
def attr_writer : List Member :=
  [Member.writer, Member.barrier_writer, Member.slot_pointer]

/-- The members generated by the macro `attr_reader` (lines 70-80). -/
def attr_reader : List Member :=
  [Member.reader, Member.writer, Member.slot_pointer]

/-- The members generated by the macro `attr_accessor` (lines 87-101). -/
def attr_accessor : List Member :=
  [Member.reader, Member.writer, Member.barrier_writer, Member.slot_pointer]

/-- Whether a generated member stores its argument into the slot. -/
def is_mutator : Member → Bool
  | Member.writer => true
  | Member.barrier_writer => true
  | _ => false

/-- The effect of calling a generated member of slot `name` with the argument
`obj`; the reader and the address getter leave the object as it is. -/
def call_member {ι : Type} [DecidableEq ι] (m : Member) (name : ι) (obj : Ref)
    (o : ManagedObject ι) : ManagedObject ι :=
  match m with
  | Member.writer => slot_set name obj o
  | Member.barrier_writer => slot_set_barrier name obj o
  | Member.reader => o
  | Member.slot_pointer => o

/-- The slots `attr_accessor` generates in `MatchData` (regexp.hpp, lines 44-47). -/
inductive MatchDataSlot where
  | source
  | regexp
  | full
  | region
  deriving DecidableEq, Repr

/-- The slots `attr_accessor` generates in `Regexp` (regexp.hpp, lines 84-85). -/
inductive RegexpSlot where
  | source
  | names
  deriving DecidableEq, Repr

/-- An object at address `self` whose slots all hold the reference `nil` and
for which no barrier has run. -/
def freshObject (ι : Type) (self nil : Ref) : ManagedObject ι :=
  { self := self, slots := fun _ => nil, barriers := [] }

/-! ## Stack-bounds checking: arithmetic facts -/

theorem intptr_range (p : Nat) : -ssizeCard ≤ intptr p ∧ intptr p < ssizeCard := by
  simp only [intptr, to_ssize_t, ssizeCard, wordCard]
  omega

/-- When the pointer difference is representable, `stack_used` is the distance. -/
theorem stack_used_eq (vm : VM) (addr : Nat)
    (hd : (ptr_distance vm.stack_start addr : Int) < ssizeCard) :
    stack_used vm addr = ptr_distance vm.stack_start addr := by
  have h1 := intptr_range vm.stack_start
  have h2 := intptr_range addr
  simp only [stack_used, ptr_distance, to_ssize_t, ssizeCard, wordCard] at *
  split_ifs <;> omega

/-- When the pointer difference is representable, `stack_remaining` is the
reduction to `ssize_t` of the mathematical headroom. -/
theorem stack_remaining_reduce (vm : VM) (addr : Nat)
    (hd : (ptr_distance vm.stack_start addr : Int) < ssizeCard) :
    stack_remaining vm addr
      = to_ssize_t ((vm.stack_size : Int) - ptr_distance vm.stack_start addr) := by
  have hu := stack_used_eq vm addr hd
  simp only [stack_remaining, hu]
  simp only [to_ssize_t, to_size_t, ssizeCard, wordCard] at *
  omega

/-- The distance is below `2^63` exactly when the source's subtraction
(lines 314-315) and negation (line 317) both stay inside `intptr_t`, that is,
when the code has defined behaviour. -/
theorem stack_used_defined (p q : Nat) :
    (ptr_distance p q : Int) < ssizeCard
      ↔ -ssizeCard < intptr p - intptr q ∧ intptr p - intptr q < ssizeCard := by
  simp only [ptr_distance, ssizeCard]
  omega

/-- For two addresses below `2^63` the distance of the `intptr_t` values is
the distance of the addresses, and it is below `2^63`. -/
theorem ptr_distance_eq_address_distance (p q : Nat)
    (hp : (p : Int) < ssizeCard) (hq : (q : Int) < ssizeCard) :
    ptr_distance p q = ((p : Int) - (q : Int)).natAbs ∧
    (ptr_distance p q : Int) < ssizeCard := by
  simp only [ptr_distance, intptr, to_ssize_t, ssizeCard, wordCard] at *
  omega

/-! ## Stack-bounds checking: `check_stack` -/

/-- C1. For every context and probe address, `check_stack` returns false
exactly when `stack_remaining` is non-positive; when it returns false it makes
exactly one `raise_stack_error` call (the call record grows by that single
entry), and when it returns true the state is untouched, so no call is made.
In particular every probe whose distance from `stack_start` exceeds
`stack_size` fails with exactly one stack-overflow error; the distance is the
one the function measures, on the `intptr_t` values of the two pointers, and
the clause covers every pair for which the subtraction and negation of lines
313-317 stay inside `intptr_t` (`stack_used_defined`). These include all pairs
of addresses below `2^63`, for which the clause is stated once more on the
distance of the addresses themselves. -/
theorem check_stack_spec (vm : VM) (addr : Nat) :
    ((check_stack vm addr).1 = false ↔ stack_remaining vm addr ≤ 0) ∧
    ((check_stack vm addr).1 = false →
      (check_stack vm addr).2.calls = vm.calls ++ [Call.raise_stack_error] ∧
      stack_errors (check_stack vm addr).2 = stack_errors vm + 1) ∧
    ((check_stack vm addr).1 = true → (check_stack vm addr).2 = vm) ∧
    ((ptr_distance vm.stack_start addr : Int) < ssizeCard →
      vm.stack_size < ptr_distance vm.stack_start addr →
      (check_stack vm addr).1 = false ∧
      stack_errors (check_stack vm addr).2 = stack_errors vm + 1) ∧
    ((vm.stack_start : Int) < ssizeCard → (addr : Int) < ssizeCard →
      vm.stack_size < ((vm.stack_start : Int) - (addr : Int)).natAbs →
      (check_stack vm addr).1 = false ∧
      stack_errors (check_stack vm addr).2 = stack_errors vm + 1) := by
  have hcount : stack_errors (raise_stack_error vm) = stack_errors vm + 1 := by
    simp [stack_errors, raise_stack_error]
  have hfar : (ptr_distance vm.stack_start addr : Int) < ssizeCard →
      vm.stack_size < ptr_distance vm.stack_start addr →
      (check_stack vm addr).1 = false ∧
      stack_errors (check_stack vm addr).2 = stack_errors vm + 1 := by
    intro hd hlt
    have hr := stack_remaining_reduce vm addr hd
    have hneg : stack_remaining vm addr ≤ 0 := by
      rw [hr]
      simp only [to_ssize_t, ssizeCard, wordCard] at *
      omega
    unfold check_stack
    rw [if_pos hneg]
    exact ⟨rfl, hcount⟩
  refine ⟨?_, ?_, ?_, hfar, ?_⟩
  · unfold check_stack
    split_ifs with h <;> simp [h]
  · unfold check_stack
    split_ifs with h
    · intro _
      exact ⟨rfl, hcount⟩
    · intro hc
      simp at hc
  · unfold check_stack
    split_ifs with h
    · intro hc
      simp at hc
    · intro _
      rfl
  · intro hp hq hlt
    obtain ⟨heq, hd⟩ := ptr_distance_eq_address_distance vm.stack_start addr hp hq
    exact hfar hd (by rw [heq]; exact hlt)

/-- Witness for `check_stack_spec`: a probe 150 bytes below the start of a
100-byte stack fails with one error. -/
theorem check_stack_spec_witness :
    (check_stack (stackVM 1000 100) 850).1 = false ∧
    stack_errors (check_stack (stackVM 1000 100) 850).2
      = stack_errors (stackVM 1000 100) + 1 :=
  (check_stack_spec (stackVM 1000 100) 850).2.2.2.1 (by decide) (by decide)

/-- C2 (as amended). Whenever the distance `|stack_start - address|` and the
headroom `stack_size - |stack_start - address|` are both representable in
`ssize_t` (below `2^63`), `stack_remaining` equals that headroom exactly; it
is negative exactly when the distance exceeds `stack_size`; and any second
probe at the same distance (above or below `stack_start`) gives the same
result. -/
theorem stack_remaining_spec (vm : VM) (addr : Nat)
    (hd : (ptr_distance vm.stack_start addr : Int) < ssizeCard)
    (hr : (vm.stack_size : Int) - ptr_distance vm.stack_start addr < ssizeCard) :
    stack_remaining vm addr = (vm.stack_size : Int) - ptr_distance vm.stack_start addr ∧
    (stack_remaining vm addr < 0 ↔ vm.stack_size < ptr_distance vm.stack_start addr) ∧
    (∀ addr2 : Nat, ptr_distance vm.stack_start addr2 = ptr_distance vm.stack_start addr →
      stack_remaining vm addr2 = stack_remaining vm addr) := by
  have heq : stack_remaining vm addr
      = (vm.stack_size : Int) - ptr_distance vm.stack_start addr := by
    rw [stack_remaining_reduce vm addr hd]
    simp only [to_ssize_t, ssizeCard, wordCard] at *
    omega
  refine ⟨heq, ?_, ?_⟩
  · rw [heq]
    omega
  · intro addr2 h2
    rw [stack_remaining_reduce vm addr2 (by rw [h2]; exact hd),
      stack_remaining_reduce vm addr hd, h2]

/-- Witness for `stack_remaining_spec`: 100 bytes of stack, probe 40 bytes below. -/
theorem stack_remaining_spec_witness :
    stack_remaining (stackVM 1000 100) 960
      = ((stackVM 1000 100).stack_size : Int) - ptr_distance (stackVM 1000 100).stack_start 960 ∧
    (stack_remaining (stackVM 1000 100) 960 < 0
      ↔ (stackVM 1000 100).stack_size < ptr_distance (stackVM 1000 100).stack_start 960) ∧
    stack_remaining (stackVM 1000 100) 1040 = stack_remaining (stackVM 1000 100) 960 :=
  ⟨(stack_remaining_spec (stackVM 1000 100) 960 (by decide) (by decide)).1,
    (stack_remaining_spec (stackVM 1000 100) 960 (by decide) (by decide)).2.1,
    (stack_remaining_spec (stackVM 1000 100) 960 (by decide) (by decide)).2.2 1040
      (by decide)⟩

/-- Counterexample to C2 as stated. With `stack_size = 2^63` and the probe at
`stack_start` the distance is `0` and the headroom `2^63`, but the conversion
of the `size_t` difference to `ssize_t` gives `-2^63`: the result differs from
the mathematical value and is negative although the distance does not exceed
`stack_size`. With `stack_start = 2^63 - 1`, the probe at `2^63` and
`stack_size = 5` the result is `4`, not `5 - (2^64 - 1)`. -/
theorem stack_remaining_not_headroom :
    (stack_remaining (stackVM 4096 9223372036854775808) 4096 = -9223372036854775808 ∧
      stack_remaining (stackVM 4096 9223372036854775808) 4096
        ≠ ((stackVM 4096 9223372036854775808).stack_size : Int)
            - ptr_distance (stackVM 4096 9223372036854775808).stack_start 4096 ∧
      ¬ ((stackVM 4096 9223372036854775808).stack_size
          < ptr_distance (stackVM 4096 9223372036854775808).stack_start 4096)) ∧
    (stack_remaining (stackVM 9223372036854775807 5) 9223372036854775808
        ≠ ((stackVM 9223372036854775807 5).stack_size : Int)
            - ptr_distance (stackVM 9223372036854775807 5).stack_start 9223372036854775808) := by
  decide

/-- The lower end point: when `stack_size` is below `2^63` and the probe is at
`stack_start - stack_size`, the headroom is exactly `0`. -/
theorem stack_remaining_lower_end (vm : VM) (addr : Nat)
    (hs : (vm.stack_size : Int) < ssizeCard)
    (hend : intptr addr = intptr vm.stack_start - vm.stack_size) :
    stack_remaining vm addr = 0 := by
  have hd : (ptr_distance vm.stack_start addr : Int) < ssizeCard := by
    simp only [ptr_distance, ssizeCard] at *
    omega
  rw [stack_remaining_reduce vm addr hd]
  simp only [ptr_distance, to_ssize_t, ssizeCard, wordCard] at *
  omega

/-- C3 (as amended). When `stack_size` is representable in `ssize_t` (below
`2^63`), every probe address in the half-open interval
`(stack_start - stack_size, stack_start]` has positive headroom:
`stack_remaining` is positive, `check_stack` returns true and leaves the state
untouched, so no stack-overflow error is raised. At the lower end point
`address = stack_start - stack_size` the headroom is `0` and `check_stack`
returns false, raising exactly one stack-overflow error. -/
theorem check_stack_within_bounds (vm : VM) (addr : Nat)
    (hs : (vm.stack_size : Int) < ssizeCard) :
    (intptr vm.stack_start - vm.stack_size < intptr addr →
      intptr addr ≤ intptr vm.stack_start →
      0 < stack_remaining vm addr ∧
      check_stack vm addr = (true, vm) ∧
      stack_errors (check_stack vm addr).2 = stack_errors vm) ∧
    (intptr addr = intptr vm.stack_start - vm.stack_size →
      stack_remaining vm addr = 0 ∧
      (check_stack vm addr).1 = false ∧
      (check_stack vm addr).2.calls = vm.calls ++ [Call.raise_stack_error] ∧
      stack_errors (check_stack vm addr).2 = stack_errors vm + 1) := by
  constructor
  · intro hlo hhi
    have hd : (ptr_distance vm.stack_start addr : Int) < ssizeCard := by
      simp only [ptr_distance, ssizeCard] at *
      omega
    have hpos : 0 < stack_remaining vm addr := by
      rw [stack_remaining_reduce vm addr hd]
      simp only [ptr_distance, to_ssize_t, ssizeCard, wordCard] at *
      omega
    have hc : check_stack vm addr = (true, vm) := by
      unfold check_stack
      rw [if_neg (by omega)]
    exact ⟨hpos, hc, by rw [hc]⟩
  · intro hend
    have hzero := stack_remaining_lower_end vm addr hs hend
    have hc : check_stack vm addr = (false, raise_stack_error vm) := by
      unfold check_stack
      rw [if_pos (by omega)]
    refine ⟨hzero, by rw [hc], by rw [hc]; rfl, ?_⟩
    rw [hc]
    simp [stack_errors, raise_stack_error]

/-- Witness for `check_stack_within_bounds`: one byte above the lower end the
check passes, at the lower end it fails. -/
theorem check_stack_within_bounds_witness :
    (0 < stack_remaining (stackVM 1000 100) 901 ∧
      check_stack (stackVM 1000 100) 901 = (true, stackVM 1000 100) ∧
      stack_errors (check_stack (stackVM 1000 100) 901).2 = stack_errors (stackVM 1000 100)) ∧
    (stack_remaining (stackVM 1000 100) 900 = 0 ∧
      (check_stack (stackVM 1000 100) 900).1 = false ∧
      (check_stack (stackVM 1000 100) 900).2.calls
        = (stackVM 1000 100).calls ++ [Call.raise_stack_error] ∧
      stack_errors (check_stack (stackVM 1000 100) 900).2
        = stack_errors (stackVM 1000 100) + 1) :=
  ⟨(check_stack_within_bounds (stackVM 1000 100) 901 (by decide)).1 (by decide) (by decide),
    (check_stack_within_bounds (stackVM 1000 100) 900 (by decide)).2 (by decide)⟩

/-- Counterexample to C3 as stated. At the lower end point
`address = stack_start - stack_size` (start 1000, size 100, probe 900) the
headroom is `0`, `check_stack` returns false and raises one error. With
`stack_size = 2^63` the probe at `stack_start` itself fails as well. -/
theorem check_stack_lower_end_fails :
    (intptr (stackVM 1000 100).stack_start - (stackVM 1000 100).stack_size ≤ intptr 900 ∧
      intptr 900 ≤ intptr (stackVM 1000 100).stack_start ∧
      stack_remaining (stackVM 1000 100) 900 = 0 ∧
      (check_stack (stackVM 1000 100) 900).1 = false ∧
      stack_errors (check_stack (stackVM 1000 100) 900).2 = 1) ∧
    (check_stack (stackVM 4096 9223372036854775808) 4096).1 = false := by
  decide

/-! ## Fiber transition flag -/

theorem request_transition_flag (vm : VM) (r : TransitionRequest) :
    (request_transition vm r).fiber_transition_flag = r := by
  cases r <;> rfl

theorem request_transitions_append (vm : VM) (rs : List TransitionRequest)
    (r : TransitionRequest) :
    request_transitions vm (rs ++ [r]) = request_transition (request_transitions vm rs) r := by
  induction rs generalizing vm with
  | nil => rfl
  | cons x xs ih => exact ih (request_transition vm x)

/-- C4 (as amended). Every transition setter stores its own state
unconditionally: from any current flag value, Finished included, the flag
after a setter call is the state that setter names; hence after any sequence
of setter calls the flag is the state named by the last call, and is the
initial value only when no setter was called. Every legal edge is therefore
taken when requested, and so is every other requested transition. -/
theorem fiber_setters_store_target (vm : VM) (rs : List TransitionRequest) :
    (∀ r : TransitionRequest, (request_transition vm r).fiber_transition_flag = r) ∧
    (request_transitions vm rs).fiber_transition_flag
      = rs.getLast?.getD vm.fiber_transition_flag := by
  refine ⟨request_transition_flag vm, ?_⟩
  rcases List.eq_nil_or_concat rs with h | ⟨xs, x, h⟩
  · subst h
    rfl
  · subst h
    rw [List.concat_eq_append, request_transitions_append, request_transition_flag]
    simp

/-- Counterexample to C4 as stated: starting from Running, `set_finished`
takes the edge Running→Finished, which is not a legal edge, and a following
`set_running` changes the flag from Finished back to Running. -/
theorem fiber_setters_take_illegal_edges :
    (stackVM 0 0).fiber_transition_flag = FiberTransition.eRunning ∧
    legal_edge FiberTransition.eRunning FiberTransition.eFinished = false ∧
    (set_finished (stackVM 0 0)).fiber_transition_flag = FiberTransition.eFinished ∧
    (set_running (set_finished (stackVM 0 0))).fiber_transition_flag
      = FiberTransition.eRunning ∧
    (request_transitions (stackVM 0 0)
        [FiberTransition.eFinished, FiberTransition.eRunning]).fiber_transition_flag
      = FiberTransition.eRunning := by
  decide

/-! ## Call frames and interrupt polling -/

theorem pop_call_frame_frame (raise_or_kill : VM → Bool × VM)
    (hframe : ∀ v : VM, (raise_or_kill v).2.call_frame = v.call_frame)
    (vm : VM) (frame : Nat) :
    (pop_call_frame raise_or_kill vm frame).2.call_frame = frame := by
  simp only [pop_call_frame, thread_interrupted_p]
  split_ifs
  · rw [hframe]
  · rfl

theorem pop_frames_append (raise_or_kill : VM → Bool × VM)
    (hframe : ∀ v : VM, (raise_or_kill v).2.call_frame = v.call_frame)
    (vm : VM) (ps : List Nat) (p : Nat) :
    (pop_frames raise_or_kill vm (ps ++ [p])).call_frame = p := by
  induction ps generalizing vm with
  | nil => exact pop_call_frame_frame raise_or_kill hframe vm p
  | cons x xs ih => exact ih (pop_call_frame raise_or_kill vm x).2

theorem push_frames_length (vm : VM) (frames : List Nat) :
    (push_frames vm frames).1.length = frames.length := by
  induction frames generalizing vm with
  | nil => rfl
  | cons f fs ih => simp [push_frames, ih]

theorem check_thread_raise_or_kill_frame (v : VM) :
    (check_thread_raise_or_kill v).2.call_frame = v.call_frame := by
  unfold check_thread_raise_or_kill
  split_ifs <;> rfl

theorem push_frames_append (vm : VM) (fs1 fs2 : List Nat) :
    push_frames vm (fs1 ++ fs2)
      = ((push_frames vm fs1).1 ++ (push_frames (push_frames vm fs1).2 fs2).1,
         (push_frames (push_frames vm fs1).2 fs2).2) := by
  induction fs1 generalizing vm with
  | nil => rfl
  | cons f fs ih =>
    have h := ih (push_call_frame vm f).2.2
    show ((push_call_frame vm f).2.1 :: (push_frames (push_call_frame vm f).2.2 (fs ++ fs2)).1,
        (push_frames (push_call_frame vm f).2.2 (fs ++ fs2)).2) = _
    rw [h]
    rfl

/-- Each push hands back the top it found: the first one the original top, each
later one the frame pushed just before it. -/
theorem push_frames_handed_back (vm : VM) (frames : List Nat) :
    (push_frames vm frames).1 = (vm.call_frame :: frames).take frames.length := by
  induction frames generalizing vm with
  | nil => rfl
  | cons f fs ih =>
    simp only [push_frames, List.length_cons, List.take_succ_cons]
    rw [ih]
    rfl

/-- Pushing `fs1 ++ fs2` and then popping once for each frame of `fs2`, with the
frames handed back by those pushes in reverse order, leaves the top that the
pushes of `fs1` alone leave. -/
theorem push_pop_partial (raise_or_kill : VM → Bool × VM)
    (hframe : ∀ v : VM, (raise_or_kill v).2.call_frame = v.call_frame)
    (vm : VM) (fs1 fs2 : List Nat) :
    (pop_frames raise_or_kill (push_frames vm (fs1 ++ fs2)).2
        (((push_frames vm (fs1 ++ fs2)).1.drop fs1.length).reverse)).call_frame
      = (push_frames vm fs1).2.call_frame := by
  rw [push_frames_append]
  have hlen := push_frames_length vm fs1
  simp only []
  rw [List.drop_left' hlen]
  cases fs2 with
  | nil => rfl
  | cons f fs =>
    have hp : (push_frames (push_frames vm fs1).2 (f :: fs)).1
        = (push_frames vm fs1).2.call_frame
            :: (push_frames (push_call_frame (push_frames vm fs1).2 f).2.2 fs).1 := rfl
    rw [hp, List.reverse_cons]
    exact pop_frames_append raise_or_kill hframe _ _ _

/-- C5. A push installs the new frame as the top, links it to the previous top
and hands the previous top back; after pushing a list of frames the top is the
last frame pushed, and the frames handed back are the original top followed by
the pushed frames except the last. For every list of `N` frames and every
original `call_frame`, pushing the frames with `push_call_frame` and then
popping `N` times with `pop_call_frame`, passing the frames handed back by the
pushes in the reverse order of the pushes, leaves `call_frame` equal to the
original value; and popping only the last pushes, however many, leaves the top
that was current before the first of them. The out-of-line interrupt check
consulted by the pops is any function that leaves `call_frame` alone. -/
theorem push_pop_round_trip (raise_or_kill : VM → Bool × VM)
    (hframe : ∀ v : VM, (raise_or_kill v).2.call_frame = v.call_frame)
    (vm : VM) (frames : List Nat) :
    (∀ (v : VM) (f : Nat),
      (push_call_frame v f).2.1 = v.call_frame ∧
      (push_call_frame v f).2.2.call_frame = f ∧
      (push_call_frame v f).2.2.frame_links = (f, v.call_frame) :: v.frame_links) ∧
    (∀ (fs : List Nat) (f : Nat), frames = fs ++ [f] →
      (push_frames vm frames).2.call_frame = f) ∧
    (push_frames vm frames).1 = (vm.call_frame :: frames).take frames.length ∧
    (push_frames vm frames).1.length = frames.length ∧
    (pop_frames raise_or_kill (push_frames vm frames).2
        (push_frames vm frames).1.reverse).call_frame = vm.call_frame ∧
    (∀ fs1 fs2 : List Nat, frames = fs1 ++ fs2 →
      (pop_frames raise_or_kill (push_frames vm frames).2
          (((push_frames vm frames).1.drop fs1.length).reverse)).call_frame
        = (push_frames vm fs1).2.call_frame) := by
  refine ⟨fun v f => ⟨rfl, rfl, rfl⟩, ?_, push_frames_handed_back vm frames,
    push_frames_length vm frames, ?_, ?_⟩
  · intro fs f h
    rw [h, push_frames_append]
    rfl
  · have h := push_pop_partial raise_or_kill hframe vm [] frames
    simpa using h
  · intro fs1 fs2 h
    rw [h]
    exact push_pop_partial raise_or_kill hframe vm fs1 fs2

/-- Witness for `push_pop_round_trip`: three frames pushed on top of frame 7,
with local interrupt checks enabled and a kill pending. The top is then frame
13, popping all three restores frame 7, and popping two leaves frame 11. -/
theorem push_pop_round_trip_witness :
    (push_frames (pendingVM 7 true) [11, 12, 13]).2.call_frame = 13 ∧
    (push_frames (pendingVM 7 true) [11, 12, 13]).1 = [7, 11, 12] ∧
    (pop_frames check_thread_raise_or_kill (push_frames (pendingVM 7 true) [11, 12, 13]).2
        (push_frames (pendingVM 7 true) [11, 12, 13]).1.reverse).call_frame
      = (pendingVM 7 true).call_frame ∧
    (pop_frames check_thread_raise_or_kill (push_frames (pendingVM 7 true) [11, 12, 13]).2
        (((push_frames (pendingVM 7 true) [11, 12, 13]).1.drop [11].length).reverse)).call_frame
      = (push_frames (pendingVM 7 true) [11]).2.call_frame :=
  ⟨(push_pop_round_trip check_thread_raise_or_kill check_thread_raise_or_kill_frame
      (pendingVM 7 true) [11, 12, 13]).2.1 [11, 12] 13 rfl,
    (push_pop_round_trip check_thread_raise_or_kill check_thread_raise_or_kill_frame
      (pendingVM 7 true) [11, 12, 13]).2.2.1,
    (push_pop_round_trip check_thread_raise_or_kill check_thread_raise_or_kill_frame
      (pendingVM 7 true) [11, 12, 13]).2.2.2.2.1,
    (push_pop_round_trip check_thread_raise_or_kill check_thread_raise_or_kill_frame
      (pendingVM 7 true) [11, 12, 13]).2.2.2.2.2 [11] [12, 13] rfl⟩

/-- C9. For every context and frame `f`, `pop_call_frame(f)` leaves
`call_frame` equal to `f` whether it returns true or false; it returns false
exactly when `thread_interrupted_p` is true, which is exactly when
`check_local_interrupts` is enabled and `check_thread_raise_or_kill` reports a
pending raise or kill. When `check_local_interrupts` is disabled, then for any
behaviour of `check_thread_raise_or_kill` and any values of
`interrupt_by_kill` and `interrupted_exception`, `thread_interrupted_p` is
false with the state untouched and `pop_call_frame` returns true with only
`call_frame` changed. -/
theorem pop_call_frame_spec (raise_or_kill : VM → Bool × VM)
    (hframe : ∀ v : VM, (raise_or_kill v).2.call_frame = v.call_frame)
    (vm : VM) (f : Nat) :
    (pop_call_frame raise_or_kill vm f).2.call_frame = f ∧
    ((pop_call_frame raise_or_kill vm f).1 = false
      ↔ (thread_interrupted_p raise_or_kill (set_call_frame vm f)).1 = true) ∧
    ((thread_interrupted_p raise_or_kill (set_call_frame vm f)).1 = true
      ↔ vm.check_local_interrupts = true ∧ (raise_or_kill (set_call_frame vm f)).1 = true) ∧
    (vm.check_local_interrupts = false →
      ∀ other : VM → Bool × VM,
        thread_interrupted_p other vm = (false, vm) ∧
        pop_call_frame other vm f = (true, set_call_frame vm f)) := by
  refine ⟨pop_call_frame_frame raise_or_kill hframe vm f, ?_, ?_, ?_⟩
  · simp [pop_call_frame, set_call_frame]
  · simp only [thread_interrupted_p, set_call_frame]
    split_ifs with h <;> simp [h]
  · intro h other
    simp [pop_call_frame, thread_interrupted_p, set_call_frame, h]

/-- Witness for `pop_call_frame_spec`: local interrupt checks disabled while a
kill is pending and an exception is registered. -/
theorem pop_call_frame_spec_witness :
    thread_interrupted_p check_thread_raise_or_kill (pendingVM 7 false)
      = (false, pendingVM 7 false) ∧
    pop_call_frame check_thread_raise_or_kill (pendingVM 7 false) 9
      = (true, set_call_frame (pendingVM 7 false) 9) :=
  (pop_call_frame_spec check_thread_raise_or_kill check_thread_raise_or_kill_frame
    (pendingVM 7 false) 9).2.2.2 (by decide) check_thread_raise_or_kill

/-! ## Checkpoints and sampling -/

/-- Storing the random value in the `uint64_t` field first does not change the
shifted and masked result. -/
theorem shift_mask_mod (r : Nat) :
    ((r % uint64Card) >>> ((r % uint64Card) &&& RBX_PROFILE_MAX_SHIFT))
        &&& RBX_PROFILE_MAX_INTERVAL
      = (r >>> (r &&& RBX_PROFILE_MAX_SHIFT)) &&& RBX_PROFILE_MAX_INTERVAL := by
  have hshift : ∀ x : Nat, x &&& 0xf = x % 16 :=
    fun x => Nat.and_pow_two_sub_one_eq_mod x 4
  have hmask : ∀ x : Nat, x &&& 0x1fff = x % 8192 :=
    fun x => Nat.and_pow_two_sub_one_eq_mod x 13
  simp only [uint64Card, RBX_PROFILE_MAX_SHIFT, RBX_PROFILE_MAX_INTERVAL, hshift, hmask,
    Nat.shiftRight_eq_div_pow]
  have hk : r % 18446744073709551616 % 16 = r % 16 := by omega
  rw [hk]
  have hlt : r % 16 < 16 := Nat.mod_lt _ (by norm_num)
  generalize r % 16 = k at hlt
  interval_cases k <;> omega

theorem set_sample_interval_interval (r : Nat) (vm : VM) :
    (set_sample_interval r vm).sample_interval = (r >>> (r &&& 0xf)) &&& 0x1fff := by
  have h := shift_mask_mod r
  simp only [RBX_PROFILE_MAX_SHIFT, RBX_PROFILE_MAX_INTERVAL] at h
  simp only [set_sample_interval, RBX_PROFILE_MAX_SHIFT, RBX_PROFILE_MAX_INTERVAL]
  exact h

/-- A checkpoint that finds the counter at or above the interval records one
sample and draws a new interval from `r`. -/
theorem checkpoint_fires (stop : Bool) (r : Nat) (vm : VM)
    (h : vm.sample_interval ≤ vm.sample_counter) :
    samples (checkpoint stop r vm) = samples vm + 1 ∧
    (checkpoint stop r vm).sample_counter = 0 ∧
    (checkpoint stop r vm).sample_interval = (r >>> (r &&& 0xf)) &&& 0x1fff := by
  have hi := set_sample_interval_interval r
  cases stop <;>
    simp [checkpoint, checkpoint_with, h, hi] <;>
    simp [set_sample_interval, sample, samples]

/-- A checkpoint that finds the counter below the interval records no sample,
keeps the interval and increments the counter. -/
theorem checkpoint_quiet (stop : Bool) (r : Nat) (vm : VM)
    (h : vm.sample_counter < vm.sample_interval) (hi : vm.sample_interval < uint64Card) :
    samples (checkpoint stop r vm) = samples vm ∧
    (checkpoint stop r vm).sample_counter = vm.sample_counter + 1 ∧
    (checkpoint stop r vm).sample_interval = vm.sample_interval := by
  have hmod : (vm.sample_counter + 1) % uint64Card = vm.sample_counter + 1 :=
    Nat.mod_eq_of_lt (by omega)
  have hn : ¬ vm.sample_interval ≤ vm.sample_counter := by omega
  cases stop <;> simp [checkpoint, checkpoint_with, hn, hmod, samples]

theorem checkpoints_run_quiet (inputs : List (Bool × Nat)) (vm : VM)
    (h : vm.sample_counter + inputs.length ≤ vm.sample_interval)
    (hi : vm.sample_interval < uint64Card) :
    samples (checkpoints_run vm inputs) = samples vm ∧
    (checkpoints_run vm inputs).sample_counter = vm.sample_counter + inputs.length ∧
    (checkpoints_run vm inputs).sample_interval = vm.sample_interval := by
  induction inputs generalizing vm with
  | nil => exact ⟨rfl, rfl, rfl⟩
  | cons c cs ih =>
    simp only [List.length_cons] at h
    obtain ⟨q1, q2, q3⟩ := checkpoint_quiet c.1 c.2 vm (by omega) hi
    obtain ⟨r1, r2, r3⟩ := ih (checkpoint c.1 c.2 vm) (by rw [q2, q3]; omega) (by rw [q3]; exact hi)
    simp only [checkpoints_run, List.length_cons]
    refine ⟨by rw [r1, q1], by rw [r2, q2]; omega, by rw [r3, q3]⟩

/-- C6. For every value `r` returned by the random source,
`set_sample_interval` leaves `sample_interval = (r >> (r & 0xf)) & 0x1fff`,
which is at most `0x1fff = 8191`, and resets `sample_counter` to 0; and every
checkpoint that draws a new interval (one that finds the counter at or above
the interval) ends with `sample_interval` equal to that value and within the
bound. -/
theorem set_sample_interval_spec (r : Nat) (vm : VM) :
    (set_sample_interval r vm).sample_interval = (r >>> (r &&& 0xf)) &&& 0x1fff ∧
    (set_sample_interval r vm).sample_interval ≤ 8191 ∧
    (set_sample_interval r vm).sample_counter = 0 ∧
    (∀ stop : Bool, vm.sample_interval ≤ vm.sample_counter →
      (checkpoint stop r vm).sample_interval = (r >>> (r &&& 0xf)) &&& 0x1fff ∧
      (checkpoint stop r vm).sample_interval ≤ 8191) := by
  have hi := set_sample_interval_interval r vm
  refine ⟨hi, ?_, rfl, ?_⟩
  · rw [hi]
    exact Nat.and_le_right
  · intro stop h
    obtain ⟨_, _, h3⟩ := checkpoint_fires stop r vm h
    exact ⟨h3, by rw [h3]; exact Nat.and_le_right⟩

/-- Witness for `set_sample_interval_spec`: a checkpoint with the counter at
the interval draws from `r = 0xdeadbeef`. -/
theorem set_sample_interval_spec_witness :
    (checkpoint true 0xdeadbeef (sampleVM 3 3)).sample_interval
      = (0xdeadbeef >>> (0xdeadbeef &&& 0xf)) &&& 0x1fff ∧
    (checkpoint true 0xdeadbeef (sampleVM 3 3)).sample_interval ≤ 8191 :=
  (set_sample_interval_spec 0xdeadbeef (sampleVM 3 3)).2.2.2 true (by decide)

/-- C7 (as amended). Each `checkpoint()` increments `sample_counter`, and a
sample fires exactly once per crossing of the interval: starting with
`sample_counter = 0` and a drawn interval `k`, none of the first `k`
checkpoint calls records a sample (after `m ≤ k` calls the counter is `m` and
the interval still `k`); the next call, the one that finds `sample_counter`
equal to `k`, is the first to record a profiling sample, records exactly one,
and immediately draws a fresh interval and resets `sample_counter` to 0. -/
theorem sample_fires_after_interval (vm : VM) (k : Nat) (inputs : List (Bool × Nat))
    (stop : Bool) (r : Nat)
    (hk : k < uint64Card) (hc : vm.sample_counter = 0) (hi : vm.sample_interval = k)
    (hlen : inputs.length = k) :
    (∀ m : Nat, m ≤ k →
      samples (checkpoints_run vm (inputs.take m)) = samples vm ∧
      (checkpoints_run vm (inputs.take m)).sample_counter = m ∧
      (checkpoints_run vm (inputs.take m)).sample_interval = k) ∧
    samples (checkpoint stop r (checkpoints_run vm inputs)) = samples vm + 1 ∧
    (checkpoint stop r (checkpoints_run vm inputs)).sample_counter = 0 ∧
    (checkpoint stop r (checkpoints_run vm inputs)).sample_interval
      = (r >>> (r &&& 0xf)) &&& 0x1fff := by
  have hfirst : ∀ m : Nat, m ≤ k →
      samples (checkpoints_run vm (inputs.take m)) = samples vm ∧
      (checkpoints_run vm (inputs.take m)).sample_counter = m ∧
      (checkpoints_run vm (inputs.take m)).sample_interval = k := by
    intro m hm
    have hl : (inputs.take m).length = m := by
      rw [List.length_take]
      omega
    obtain ⟨q1, q2, q3⟩ := checkpoints_run_quiet (inputs.take m) vm
      (by rw [hl, hc, hi]; omega) (by rw [hi]; exact hk)
    exact ⟨q1, by rw [q2, hl, hc]; omega, by rw [q3, hi]⟩
  refine ⟨hfirst, ?_⟩
  obtain ⟨q1, q2, q3⟩ := hfirst k (le_refl k)
  have hall : inputs.take k = inputs := by
    rw [← hlen]
    exact List.take_length inputs
  rw [hall] at q1 q2 q3
  obtain ⟨f1, f2, f3⟩ := checkpoint_fires stop r (checkpoints_run vm inputs)
    (by rw [q2, q3])
  exact ⟨by rw [f1, q1], f2, f3⟩

/-- Witness for `sample_fires_after_interval`: interval 2, so the third
checkpoint records the sample. -/
theorem sample_fires_after_interval_witness :
    samples (checkpoint false 12345 (checkpoints_run (sampleVM 2 0) [(false, 7), (true, 9)]))
      = samples (sampleVM 2 0) + 1 ∧
    (checkpoint false 12345
      (checkpoints_run (sampleVM 2 0) [(false, 7), (true, 9)])).sample_counter = 0 ∧
    (checkpoint false 12345
      (checkpoints_run (sampleVM 2 0) [(false, 7), (true, 9)])).sample_interval
      = (12345 >>> (12345 &&& 0xf)) &&& 0x1fff :=
  (sample_fires_after_interval (sampleVM 2 0) 2 [(false, 7), (true, 9)] false 12345
    (by decide) rfl rfl rfl).2

/-- Counterexample to C7 as stated: with `sample_counter = 0` and interval
`k = 1`, the first checkpoint brings `sample_counter` to `1 = k` but records no
sample and draws no interval; the second checkpoint is the one that records
the sample and resets the counter. -/
theorem sample_not_on_reaching_interval :
    (checkpoint false 77 (sampleVM 1 0)).sample_counter = 1 ∧
    samples (checkpoint false 77 (sampleVM 1 0)) = 0 ∧
    (checkpoint false 77 (sampleVM 1 0)).sample_interval = 1 ∧
    samples (checkpoint false 78 (checkpoint false 77 (sampleVM 1 0))) = 1 ∧
    (checkpoint false 78 (checkpoint false 77 (sampleVM 1 0))).sample_counter = 0 := by
  decide

theorem checkpoint_with_counts (card : Nat) (stop : Bool) (r : Nat) (vm : VM) :
    (checkpoint_with card stop r vm).checkpoints = (vm.checkpoints + 1) % card ∧
    (checkpoint_with card stop r vm).stops
      = if stop then (vm.stops + 1) % card else vm.stops := by
  cases stop <;>
    simp only [checkpoint_with] <;>
    split_ifs <;>
    simp [set_sample_interval, sample]

theorem checkpoints_run_eq (vm : VM) (inputs : List (Bool × Nat)) :
    checkpoints_run vm inputs = checkpoints_run_with uint64Card vm inputs := by
  induction inputs generalizing vm with
  | nil => rfl
  | cons c cs ih => exact ih (checkpoint c.1 c.2 vm)

/-- While neither counter wraps, a run of checkpoints adds the number of calls
to `checkpoints` and the number of observed stops to `stops`. -/
theorem checkpoints_run_with_counts (card : Nat) (inputs : List (Bool × Nat)) (vm : VM)
    (hc : vm.checkpoints + inputs.length < card)
    (hs : vm.stops + inputs.countP (fun c => c.1) < card) :
    (checkpoints_run_with card vm inputs).checkpoints = vm.checkpoints + inputs.length ∧
    (checkpoints_run_with card vm inputs).stops
      = vm.stops + inputs.countP (fun c => c.1) := by
  induction inputs generalizing vm with
  | nil => exact ⟨rfl, by simp [checkpoints_run_with]⟩
  | cons c cs ih =>
    obtain ⟨c1, c2⟩ := checkpoint_with_counts card c.1 c.2 vm
    simp only [List.length_cons, List.countP_cons] at hc hs
    have hc1 : (checkpoint_with card c.1 c.2 vm).checkpoints = vm.checkpoints + 1 := by
      rw [c1]
      exact Nat.mod_eq_of_lt (by omega)
    have hs1 : (checkpoint_with card c.1 c.2 vm).stops
        = vm.stops + (if c.1 = true then 1 else 0) := by
      rw [c2]
      cases hb : c.1
      · simp
      · simp only [hb, if_true] at hs ⊢
        exact Nat.mod_eq_of_lt (by omega)
    obtain ⟨h1, h2⟩ := ih (checkpoint_with card c.1 c.2 vm)
      (by rw [hc1]; omega) (by rw [hs1]; omega)
    simp only [checkpoints_run_with, List.length_cons, List.countP_cons]
    rw [h1, h2, hc1, hs1]
    constructor <;> omega

/-- C8 (as amended). For every context and every outcome `b` of
`ThreadNexus::check_stop`, one `checkpoint()` increments the checkpoints
counter once, and the stops counter once if `b` is true and not at all if `b`
is false, in the arithmetic of the counter type `diagnostics::metric`: with
`card` the number of values of that type (`2^64` for `checkpoint`), the
checkpoints counter becomes `(checkpoints + 1) mod card` and the stops counter
becomes `(stops + 1) mod card` when `b` is true and is unchanged otherwise. So
each increases by exactly 1 while it is below the largest value `card - 1`, and
wraps to 0 at the largest value. Over any sequence of checkpoints during which
neither counter wraps, the checkpoints counter grows by the number of calls,
the stops counter by the number of calls at which a stop was observed, and the
growth of the stops counter never exceeds that of the checkpoints counter. -/
theorem checkpoint_counters_spec (card : Nat) (vm : VM) (b : Bool) (r : Nat)
    (inputs : List (Bool × Nat)) :
    (checkpoint b r vm = checkpoint_with uint64Card b r vm ∧
      checkpoints_run vm inputs = checkpoints_run_with uint64Card vm inputs) ∧
    ((checkpoint_with card b r vm).checkpoints = (vm.checkpoints + 1) % card ∧
      (checkpoint_with card b r vm).stops
        = if b then (vm.stops + 1) % card else vm.stops) ∧
    (vm.checkpoints + 1 < card →
      (checkpoint_with card b r vm).checkpoints = vm.checkpoints + 1) ∧
    (vm.stops + 1 < card →
      (checkpoint_with card b r vm).stops = vm.stops + (if b then 1 else 0)) ∧
    (vm.checkpoints + 1 = card → (checkpoint_with card b r vm).checkpoints = 0) ∧
    (vm.stops + 1 = card → b = true → (checkpoint_with card b r vm).stops = 0) ∧
    (vm.checkpoints + inputs.length < card →
      vm.stops + inputs.countP (fun c => c.1) < card →
      (checkpoints_run_with card vm inputs).checkpoints = vm.checkpoints + inputs.length ∧
      (checkpoints_run_with card vm inputs).stops
        = vm.stops + inputs.countP (fun c => c.1) ∧
      (checkpoints_run_with card vm inputs).stops - vm.stops
        ≤ (checkpoints_run_with card vm inputs).checkpoints - vm.checkpoints) := by
  obtain ⟨c1, c2⟩ := checkpoint_with_counts card b r vm
  refine ⟨⟨rfl, checkpoints_run_eq vm inputs⟩, ⟨c1, c2⟩, ?_, ?_, ?_, ?_, ?_⟩
  · intro h
    rw [c1]
    exact Nat.mod_eq_of_lt h
  · intro h
    rw [c2]
    cases b
    · simp
    · simp only [if_true]
      exact Nat.mod_eq_of_lt h
  · intro h
    rw [c1, h]
    exact Nat.mod_self card
  · intro h hb
    rw [c2, hb, if_pos rfl, h]
    exact Nat.mod_self card
  · intro hc hs
    obtain ⟨h1, h2⟩ := checkpoints_run_with_counts card inputs vm hc hs
    refine ⟨h1, h2, ?_⟩
    have hle : inputs.countP (fun c => c.1) ≤ inputs.length := List.countP_le_length _
    omega

/-- Witness for `checkpoint_counters_spec`: three checkpoints of the 64-bit
`checkpoint`, two of them observing a stop, starting from 10 and 4. -/
theorem checkpoint_counters_spec_witness :
    (checkpoints_run_with uint64Card (counterVM 10 4)
        [(true, 1), (false, 2), (true, 3)]).checkpoints
      = (counterVM 10 4).checkpoints + [(true, 1), (false, 2), (true, 3)].length ∧
    (checkpoints_run_with uint64Card (counterVM 10 4)
        [(true, 1), (false, 2), (true, 3)]).stops
      = (counterVM 10 4).stops
          + [(true, 1), (false, 2), (true, 3)].countP (fun c => c.1) ∧
    (checkpoints_run_with uint64Card (counterVM 10 4)
        [(true, 1), (false, 2), (true, 3)]).stops - (counterVM 10 4).stops
      ≤ (checkpoints_run_with uint64Card (counterVM 10 4)
          [(true, 1), (false, 2), (true, 3)]).checkpoints - (counterVM 10 4).checkpoints :=
  (checkpoint_counters_spec uint64Card (counterVM 10 4) true 0
    [(true, 1), (false, 2), (true, 3)]).2.2.2.2.2.2 (by decide) (by decide)

/-- Counterexample to C8 as stated: with both counters at the largest 64-bit
value `2^64 - 1`, a checkpoint that observes a stop leaves both at `0`; neither
has increased by 1, and the same happens for a 32-bit counter type. -/
theorem checkpoint_counters_wrap :
    (checkpoint true 0 (counterVM 18446744073709551615 18446744073709551615)).checkpoints = 0 ∧
    (checkpoint true 0 (counterVM 18446744073709551615 18446744073709551615)).stops = 0 ∧
    (checkpoint true 0 (counterVM 18446744073709551615 18446744073709551615)).checkpoints
      ≠ (counterVM 18446744073709551615 18446744073709551615).checkpoints + 1 ∧
    (checkpoint true 0 (counterVM 18446744073709551615 18446744073709551615)).stops
      ≠ (counterVM 18446744073709551615 18446744073709551615).stops + 1 ∧
    (checkpoint_with 4294967296 true 0 (counterVM 4294967295 4294967295)).checkpoints = 0 := by
  decide

/-! ## Bounded wait -/

theorem outcome_zero {σ : Type} (f : σ → Bool × σ) (s : σ) : outcome f s 0 = (f s).1 := rfl

theorem outcome_succ {σ : Type} (f : σ → Bool × σ) (s : σ) (j : Nat) :
    outcome f s (j + 1) = outcome f (f s).2 j := rfl

/-- The loop either stops at the first evaluation that returns true, or makes
all `n` evaluations, each returning false. -/
theorem limited_wait_loop_cases {σ : Type} (f : σ → Bool × σ) (n : Nat) (s : σ) :
    (∃ m : Nat, m < n ∧ (∀ j : Nat, j < m → outcome f s j = false) ∧ outcome f s m = true ∧
        limited_wait_loop f n false s = (true, m + 1, state_after f s (m + 1))) ∨
    ((∀ j : Nat, j < n → outcome f s j = false) ∧
        limited_wait_loop f n false s = (false, n, state_after f s n)) := by
  induction n generalizing s with
  | zero =>
    right
    exact ⟨fun j hj => absurd hj (Nat.not_lt_zero j), rfl⟩
  | succ n ih =>
    cases h : (f s).1 with
    | true =>
      left
      refine ⟨0, Nat.succ_pos n, fun j hj => absurd hj (Nat.not_lt_zero j), ?_, ?_⟩
      · rw [outcome_zero, h]
      · simp [limited_wait_loop, h, state_after]
    | false =>
      have hstep : limited_wait_loop f (n + 1) false s
          = ((limited_wait_loop f n false (f s).2).1,
             (limited_wait_loop f n false (f s).2).2.1 + 1,
             (limited_wait_loop f n false (f s).2).2.2) := by
        simp [limited_wait_loop, h]
      have hall : ∀ m : Nat, (∀ j : Nat, j < m → outcome f (f s).2 j = false) →
          ∀ j : Nat, j < m + 1 → outcome f s j = false := by
        intro m hm j hj
        cases j with
        | zero => rw [outcome_zero, h]
        | succ j => rw [outcome_succ]; exact hm j (by omega)
      rcases ih (f s).2 with ⟨m, hm, hfalse, htrue, hres⟩ | ⟨hfalse, hres⟩
      · left
        refine ⟨m + 1, by omega, hall m hfalse, ?_, ?_⟩
        · rw [outcome_succ]; exact htrue
        · rw [hstep, hres]
          rfl
      · right
        refine ⟨hall n hfalse, ?_⟩
        rw [hstep, hres]
        rfl

/-- C10. For every predicate `f` (a callable with its own state, started in
`s`), `limited_wait_for(f)` returns after evaluating `f` at most
`cWaitLimit = 100` times. It returns true exactly when one of the first 100
evaluations of `f` returns true, and then it has stopped at the first such
evaluation: every earlier evaluation returned false, the number of evaluations
made is the index of that evaluation plus one, and `f` is left in the state
right after it. It returns false exactly when all 100 evaluations returned
false, after exactly 100 evaluations. -/
theorem limited_wait_for_spec {σ : Type} (f : σ → Bool × σ) (s : σ) :
    cWaitLimit = 100 ∧
    (limited_wait_for f s).2.1 ≤ 100 ∧
    ((limited_wait_for f s).1 = true ↔ ∃ j : Nat, j < 100 ∧ outcome f s j = true) ∧
    ((limited_wait_for f s).1 = true →
      ∃ m : Nat, m < 100 ∧ (∀ j : Nat, j < m → outcome f s j = false) ∧
        outcome f s m = true ∧
        limited_wait_for f s = (true, m + 1, state_after f s (m + 1))) ∧
    ((limited_wait_for f s).1 = false →
      (∀ j : Nat, j < 100 → outcome f s j = false) ∧
        limited_wait_for f s = (false, 100, state_after f s 100)) := by
  refine ⟨rfl, ?_⟩
  unfold limited_wait_for
  have hlimit : cWaitLimit = 100 := rfl
  rw [hlimit]
  rcases limited_wait_loop_cases f 100 s with ⟨m, hm, hfalse, htrue, hres⟩ | ⟨hfalse, hres⟩
  · rw [hres]
    refine ⟨Nat.succ_le_of_lt hm, ?_, ?_, ?_⟩
    · exact ⟨fun _ => ⟨m, hm, htrue⟩, fun _ => rfl⟩
    · intro _
      exact ⟨m, hm, hfalse, htrue, rfl⟩
    · intro h
      simp at h
  · rw [hres]
    refine ⟨le_refl 100, ?_, ?_, ?_⟩
    · constructor
      · intro h
        simp at h
      · rintro ⟨j, hj, hjt⟩
        rw [hfalse j hj] at hjt
        simp at hjt
    · intro h
      simp at h
    · intro _
      exact ⟨hfalse, rfl⟩

/-- Witness for `limited_wait_for_spec`: a predicate that never becomes true is
evaluated exactly 100 times. -/
theorem limited_wait_for_spec_witness :
    (limited_wait_for (ready_after 1000) 0).1 = false ∧
    limited_wait_for (ready_after 1000) 0
      = (false, 100, state_after (ready_after 1000) 0 100) :=
  ⟨by decide, ((limited_wait_for_spec (ready_after 1000) 0).2.2.2.2 (by decide)).2⟩

/-! ## Slot accessors -/

theorem slot_set_barrier_eq {ι : Type} [DecidableEq ι] (name : ι) (obj : Ref)
    (o : ManagedObject ι) :
    slot_set_barrier name obj o = write_barrier (slot_set name obj o) o.self obj := rfl

/-- C11 (as amended). For every slot generated by `attr_writer` or
`attr_accessor`, both macros generate two mutators. The mutator that takes
`STATE` stores `obj` into the slot and invokes
`memory::write_barrier(state, this, obj)` exactly once for that store. The
mutator without `STATE` stores `obj` and invokes no write barrier. Neither
touches another slot, and after either of them the reader, which
`attr_accessor` generates and `attr_writer` does not, returns `obj`. -/
theorem slot_accessors_spec {ι : Type} [DecidableEq ι] (o : ManagedObject ι) (name : ι)
    (obj : Ref) :
    (attr_writer.filter is_mutator = [Member.writer, Member.barrier_writer] ∧
      attr_accessor.filter is_mutator = [Member.writer, Member.barrier_writer]) ∧
    (Member.reader ∈ attr_accessor ∧ Member.reader ∉ attr_writer) ∧
    ((call_member Member.barrier_writer name obj o).barriers = o.barriers ++ [(o.self, obj)] ∧
      slot_get name (call_member Member.barrier_writer name obj o) = obj) ∧
    ((call_member Member.writer name obj o).barriers = o.barriers ∧
      slot_get name (call_member Member.writer name obj o) = obj) ∧
    (∀ m : Member, ∀ other : ι, other ≠ name →
      slot_get other (call_member m name obj o) = slot_get other o) := by
  refine ⟨⟨by decide, by decide⟩, ⟨by decide, by decide⟩, ⟨rfl, ?_⟩, ⟨rfl, ?_⟩, ?_⟩
  · simp [call_member, slot_set_barrier, write_barrier, slot_get]
  · simp [call_member, slot_set, slot_get]
  · intro m other hne
    cases m <;>
      simp [call_member, slot_set, slot_set_barrier, write_barrier, slot_get,
        Function.update_noteq hne]

/-- Witness for `slot_accessors_spec`: storing into `source` of a `MatchData`
leaves its `regexp` slot alone. -/
theorem slot_accessors_spec_witness :
    slot_get MatchDataSlot.regexp
        (call_member Member.barrier_writer MatchDataSlot.source 42
          (freshObject MatchDataSlot 4096 26))
      = slot_get MatchDataSlot.regexp (freshObject MatchDataSlot 4096 26) :=
  (slot_accessors_spec (freshObject MatchDataSlot 4096 26) MatchDataSlot.source 42).2.2.2.2
    Member.barrier_writer MatchDataSlot.regexp (by decide)

/-- Counterexample to C11 as stated: `attr_accessor` generates the mutator
`source(String* obj)` for `MatchData`, and `attr_writer` generates the same
member; calling it on a fresh object stores the reference 42 into the slot
while no write barrier is invoked. The same holds for `names` of `Regexp`. -/
theorem plain_mutator_omits_barrier :
    Member.writer ∈ attr_accessor ∧ Member.writer ∈ attr_writer ∧
    is_mutator Member.writer = true ∧
    slot_get MatchDataSlot.source
        (call_member Member.writer MatchDataSlot.source 42 (freshObject MatchDataSlot 4096 26))
      = 42 ∧
    (call_member Member.writer MatchDataSlot.source 42
        (freshObject MatchDataSlot 4096 26)).barriers = [] ∧
    slot_get RegexpSlot.names
        (call_member Member.writer RegexpSlot.names 42 (freshObject RegexpSlot 8192 26))
      = 42 ∧
    (call_member Member.writer RegexpSlot.names 42
        (freshObject RegexpSlot 8192 26)).barriers = [] := by
  decide

end Rubinius
